import Mathlib

/-!
Verification of the intention (service-mesh authorization policy) core of
`agent/structs/intention.go`: the precedence engine, canonical ordering,
content hash, validation, authorization gate, cloning and wire round trip.

Go strings are byte strings compared bytewise; on well-formed UTF-8 the
bytewise order coincides with the code-point order, so string comparison is
embedded as lexicographic order on the list of code points, while the hash
input stream uses the actual UTF-8 bytes.
-/

/-- UTF-8 encoding of a single character, as the list of its byte values. -/
def charUtf8 (c : Char) : List Nat :=
  let n := c.toNat
  if n < 0x80 then [n]
  else if n < 0x800 then
    [0xC0 ||| (n >>> 6), 0x80 ||| (n &&& 0x3F)]
  else if n < 0x10000 then
    [0xE0 ||| (n >>> 12), 0x80 ||| ((n >>> 6) &&& 0x3F), 0x80 ||| (n &&& 0x3F)]
  else
    [0xF0 ||| (n >>> 18), 0x80 ||| ((n >>> 12) &&& 0x3F),
     0x80 ||| ((n >>> 6) &&& 0x3F), 0x80 ||| (n &&& 0x3F)]

/-- Byte content of a Go string: the UTF-8 bytes, as `[]byte(s)` produces. -/
def strBytes (s : String) : List Nat := s.toList.flatMap charUtf8

/-- Code points of a string, used for the embedded bytewise string order. -/
def strNats (s : String) : List Nat := s.toList.map Char.toNat

/-- Lexicographic strict order on lists of naturals. -/
def natListLt : List Nat → List Nat → Bool
  | [], [] => false
  | [], _ :: _ => true
  | _ :: _, [] => false
  | a :: as, b :: bs => if a < b then true else if b < a then false else natListLt as bs

/-- Embedding of the Go string comparison `a < b` (bytewise lexicographic). -/
def strLtB (a b : String) : Bool := natListLt (strNats a) (strNats b)

/-- Embedding of Go `strings.Contains(s, sub)`: substring occurrence. -/
def strContains (s sub : String) : Bool :=
  s.toList.tails.any (fun t => sub.toList.isPrefixOf t)

theorem natListLt_cons (a b : Nat) (as bs : List Nat) :
    natListLt (a :: as) (b :: bs) = true ↔
      (a < b ∨ (a = b ∧ natListLt as bs = true)) := by
  rw [natListLt]
  split_ifs with h1 h2
  · simp [h1]
  · simp only [false_iff]
    rintro (h | ⟨rfl, -⟩)
    · exact absurd h (Nat.lt_asymm h2)
    · exact absurd h2 (Nat.lt_irrefl a)
  · have h3 : a = b := Nat.le_antisymm (Nat.le_of_not_lt h2) (Nat.le_of_not_lt h1)
    subst h3
    simp

theorem natListLt_irrefl : ∀ l : List Nat, natListLt l l = false
  | [] => rfl
  | a :: as => by
      rw [natListLt]
      simp [Nat.lt_irrefl, natListLt_irrefl as]

theorem natListLt_trans :
    ∀ (a b c : List Nat), natListLt a b = true → natListLt b c = true →
      natListLt a c = true := by
  intro a
  induction a with
  | nil =>
    intro b c h1 h2
    cases b with
    | nil => simp [natListLt] at h1
    | cons x xs =>
      cases c with
      | nil => simp [natListLt] at h2
      | cons y ys => rfl
  | cons a as ih =>
    intro b c h1 h2
    cases b with
    | nil => simp [natListLt] at h1
    | cons x xs =>
      cases c with
      | nil => simp [natListLt] at h2
      | cons y ys =>
        rw [natListLt_cons] at h1 h2 ⊢
        rcases h1 with h1 | ⟨rfl, h1t⟩
        · rcases h2 with h2 | ⟨rfl, h2t⟩
          · exact Or.inl (Nat.lt_trans h1 h2)
          · exact Or.inl h1
        · rcases h2 with h2 | ⟨rfl, h2t⟩
          · exact Or.inl h2
          · exact Or.inr ⟨rfl, ih xs ys h1t h2t⟩

theorem natListLt_asymm {a b : List Nat} (h : natListLt a b = true) :
    natListLt b a = false := by
  by_contra hc
  have hba : natListLt b a = true := by
    cases hab : natListLt b a
    · exact absurd hab hc
    · rfl
  have := natListLt_trans a b a h hba
  rw [natListLt_irrefl] at this
  exact Bool.false_ne_true this

theorem natListLt_connex :
    ∀ (a b : List Nat), natListLt a b = false → natListLt b a = false → a = b := by
  intro a
  induction a with
  | nil =>
    intro b h1 _
    cases b with
    | nil => rfl
    | cons x xs => simp [natListLt] at h1
  | cons a as ih =>
    intro b h1 h2
    cases b with
    | nil => simp [natListLt] at h2
    | cons x xs =>
      have h1t : ¬ (a < x ∨ (a = x ∧ natListLt as xs = true)) := by
        rw [← natListLt_cons]
        simp [h1]
      have h2t : ¬ (x < a ∨ (x = a ∧ natListLt xs as = true)) := by
        rw [← natListLt_cons]
        simp [h2]
      push_neg at h1t h2t
      have hax : a = x := Nat.le_antisymm h2t.1 h1t.1
      subst hax
      have hTail : as = xs := by
        apply ih xs
        · cases hv : natListLt as xs
          · rfl
          · exact absurd hv (by simpa using h1t.2 rfl)
        · cases hv : natListLt xs as
          · rfl
          · exact absurd hv (by simpa using h2t.2 rfl)
      rw [hTail]

theorem strNats_inj {a b : String} (h : strNats a = strNats b) : a = b := by
  unfold strNats at h
  have hl : a.toList = b.toList := by
    have hinj : Function.Injective Char.toNat :=
      StrictMono.injective fun _ _ hlt => hlt
    exact List.map_injective_iff.mpr hinj h
  cases a; cases b
  exact congrArg String.mk (by simpa [String.toList] using hl)

/-- Wildcard specifier token. Modelled from the spec: the single token
representing any value for a namespace or name field, written `*`
(the constant is declared outside the provided sources). -/
def WildcardSpecifier : String := "*"

/-- Default namespace value (`IntentionDefaultNamespace`). -/
def IntentionDefaultNamespace : String := "default"

/-- Allowlist action constant (`IntentionActionAllow`); the Go type
`IntentionAction` is a string type. -/
def IntentionActionAllow : String := "allow"

/-- Denylist action constant (`IntentionActionDeny`). -/
def IntentionActionDeny : String := "deny"

/-- Source type constant (`IntentionSourceConsul`); the Go type
`IntentionSourceType` is a string type. -/
def IntentionSourceConsul : String := "consul"

/-- Scalar (value-typed) fields of the Go `Intention` struct. A Go struct
assignment `t2 := *t` copies these by value; the map-typed `Meta` and the
slice-typed `Hash` are kept separately. Timestamps and the raft index are
carried as opaque numbers. -/
structure IntentionData where
  ID : String
  Description : String
  SourceNS : String
  SourceName : String
  DestinationNS : String
  DestinationName : String
  SourceType : String
  Action : String
  DefaultAddr : String
  DefaultPort : Int
  Precedence : Int
  CreatedAt : Nat
  UpdatedAt : Nat
  CreateIndex : Nat
  ModifyIndex : Nat
deriving DecidableEq

/-- The `Intention` entity. `Meta` is the key-value content of the Go map
(association list with the keys pairwise distinct in any value produced by
Go); `Hash` is `none` for a nil byte slice and `some bytes` otherwise. -/
structure Intention extends IntentionData where
  Meta : List (String × String)
  Hash : Option (List Nat)
deriving DecidableEq

/-- Embedding of the method `countExact`: counts the exact (non-wildcard)
values among the given namespace and name. -/
def countExact (ns n : String) : Int :=
  if ns = WildcardSpecifier then 0
  else if n = WildcardSpecifier then 1
  else 2

/-- Embedding of `Intention.UpdatePrecedence`: sets `Precedence` from the
exactness of the destination (selecting the maximum 9, 6 or 3) minus the
inexactness of the source; the final branch mirrors the defensive default
of the Go switch. -/
def Intention.UpdatePrecedence (x : Intention) : Intention :=
  if countExact x.DestinationNS x.DestinationName = 2 then
    { x with Precedence := 9 - (2 - countExact x.SourceNS x.SourceName) }
  else if countExact x.DestinationNS x.DestinationName = 1 then
    { x with Precedence := 6 - (2 - countExact x.SourceNS x.SourceName) }
  else if countExact x.DestinationNS x.DestinationName = 0 then
    { x with Precedence := 3 - (2 - countExact x.SourceNS x.SourceName) }
  else
    { x with Precedence := 0 }

theorem countExact_cases (ns n : String) :
    countExact ns n = 0 ∨ countExact ns n = 1 ∨ countExact ns n = 2 := by
  unfold countExact
  split_ifs <;> simp

theorem updatePrecedence_formula (x : Intention) :
    x.UpdatePrecedence.Precedence =
      3 * countExact x.DestinationNS x.DestinationName +
        countExact x.SourceNS x.SourceName + 1 := by
  unfold Intention.UpdatePrecedence
  rcases countExact_cases x.DestinationNS x.DestinationName with hd | hd | hd <;>
    rcases countExact_cases x.SourceNS x.SourceName with hs | hs | hs <;>
      simp [hd, hs]

/-- Validity of the four tuple fields, as the validation engine checks them:
each non-empty, each either exactly the wildcard specifier or free of the
wildcard character, and no exact name following a wildcard namespace. -/
def ValidTupleFields (x : Intention) : Prop :=
  x.SourceNS ≠ "" ∧ x.SourceName ≠ "" ∧ x.DestinationNS ≠ "" ∧ x.DestinationName ≠ "" ∧
  (x.SourceNS = WildcardSpecifier ∨ strContains x.SourceNS WildcardSpecifier = false) ∧
  (x.SourceName = WildcardSpecifier ∨ strContains x.SourceName WildcardSpecifier = false) ∧
  (x.DestinationNS = WildcardSpecifier ∨ strContains x.DestinationNS WildcardSpecifier = false) ∧
  (x.DestinationName = WildcardSpecifier ∨ strContains x.DestinationName WildcardSpecifier = false) ∧
  (x.SourceName ≠ WildcardSpecifier → x.SourceNS ≠ WildcardSpecifier) ∧
  (x.DestinationName ≠ WildcardSpecifier → x.DestinationNS ≠ WildcardSpecifier)

instance (x : Intention) : Decidable (ValidTupleFields x) := by
  unfold ValidTupleFields
  infer_instance

/-- Template intention used by the concrete witnesses and counterexamples. -/
def exIntention : Intention :=
  { ID := "", Description := "", SourceNS := "default", SourceName := "web",
    DestinationNS := "default", DestinationName := "db",
    SourceType := "consul", Action := "allow",
    DefaultAddr := "", DefaultPort := 0, Precedence := 0,
    CreatedAt := 0, UpdatedAt := 0, CreateIndex := 0, ModifyIndex := 0,
    Meta := [], Hash := none }

/-- Example intention with source `(default, *)` and destination `(default, db)`. -/
def exIntentionSrcStar : Intention :=
  { exIntention with SourceName := WildcardSpecifier }

/-- Example intention with source `(default, *)` and destination `(default, *)`. -/
def exIntentionStarStar : Intention :=
  { exIntention with SourceName := WildcardSpecifier,
                     DestinationName := WildcardSpecifier }

/-- C1: for every intention whose four tuple fields are valid, UpdatePrecedence
assigns a precedence in [1,9]; the assigned value depends only on the exactness
pattern of the source and destination tuples, the nine exactness combinations
yield nine distinct values (precedences agree exactly when both exactness
counts agree), and destination exactness weighs more heavily than source
exactness (greater destination exactness forces a greater precedence whatever
the sources are). -/
theorem updatePrecedence_valid_tuple_pattern (x : Intention) (_hx : ValidTupleFields x) :
    (1 ≤ x.UpdatePrecedence.Precedence ∧ x.UpdatePrecedence.Precedence ≤ 9) ∧
    (∀ y : Intention, ValidTupleFields y →
      (x.UpdatePrecedence.Precedence = y.UpdatePrecedence.Precedence ↔
        (countExact x.SourceNS x.SourceName = countExact y.SourceNS y.SourceName ∧
         countExact x.DestinationNS x.DestinationName =
           countExact y.DestinationNS y.DestinationName))) ∧
    (∀ y : Intention, ValidTupleFields y →
      countExact y.DestinationNS y.DestinationName <
          countExact x.DestinationNS x.DestinationName →
      y.UpdatePrecedence.Precedence < x.UpdatePrecedence.Precedence) := by
  have hsx := countExact_cases x.SourceNS x.SourceName
  have hdx := countExact_cases x.DestinationNS x.DestinationName
  refine ⟨?_, ?_, ?_⟩
  · simp only [updatePrecedence_formula]
    omega
  · intro y _
    have hsy := countExact_cases y.SourceNS y.SourceName
    have hdy := countExact_cases y.DestinationNS y.DestinationName
    simp only [updatePrecedence_formula]
    omega
  · intro y _ hlt
    have hsy := countExact_cases y.SourceNS y.SourceName
    have hdy := countExact_cases y.DestinationNS y.DestinationName
    simp only [updatePrecedence_formula]
    omega

/-- Witness for C1 at concrete valid intentions. -/
theorem updatePrecedence_valid_tuple_pattern_witness :
    (1 ≤ exIntention.UpdatePrecedence.Precedence ∧
      exIntention.UpdatePrecedence.Precedence ≤ 9) ∧
    (exIntention.UpdatePrecedence.Precedence =
        exIntentionSrcStar.UpdatePrecedence.Precedence ↔
      (countExact exIntention.SourceNS exIntention.SourceName =
         countExact exIntentionSrcStar.SourceNS exIntentionSrcStar.SourceName ∧
       countExact exIntention.DestinationNS exIntention.DestinationName =
         countExact exIntentionSrcStar.DestinationNS exIntentionSrcStar.DestinationName)) :=
  ⟨(updatePrecedence_valid_tuple_pattern exIntention (by decide)).1,
   (updatePrecedence_valid_tuple_pattern exIntention (by decide)).2.1
     exIntentionSrcStar (by decide)⟩

/-- C4 counterexample: with source `(default, *)` and destination `(default, *)`
the code assigns precedence 5, not the claimed 3. -/
theorem updatePrecedence_star_star_ne_three :
    exIntentionStarStar.UpdatePrecedence.Precedence ≠ 3 := by decide

/-- C4 as amended: source `(default, web)` and destination `(default, db)` give
precedence 9; source `(default, *)` and destination `(default, db)` give 8; and
source `(default, *)` with destination `(default, *)` gives 5. -/
theorem updatePrecedence_examples :
    exIntention.UpdatePrecedence.Precedence = 9 ∧
    exIntentionSrcStar.UpdatePrecedence.Precedence = 8 ∧
    exIntentionStarStar.UpdatePrecedence.Precedence = 5 := by decide

/-- C10: countExact returns 0, 1 or 2 on every pair of strings, so the
defensive default branch of UpdatePrecedence is unreachable and every
intention, valid or not, is assigned a precedence in [1,9] (in particular
never the defensive 0). -/
theorem countExact_total_updatePrecedence_range :
    (∀ ns n : String, countExact ns n = 0 ∨ countExact ns n = 1 ∨ countExact ns n = 2) ∧
    (∀ x : Intention,
      x.UpdatePrecedence.Precedence ≠ 0 ∧
      1 ≤ x.UpdatePrecedence.Precedence ∧ x.UpdatePrecedence.Precedence ≤ 9) := by
  refine ⟨countExact_cases, fun x => ?_⟩
  have hs := countExact_cases x.SourceNS x.SourceName
  have hd := countExact_cases x.DestinationNS x.DestinationName
  simp only [updatePrecedence_formula]
  omega

/-- Embedding of `IntentionPrecedenceSorter.Less`: primary key precedence
descending, tie broken by ascending lexicographic comparison of the 4-tuple
(SourceNS, SourceName, DestinationNS, DestinationName) in that order. -/
def IntentionPrecedenceSorter.Less (a b : Intention) : Bool :=
  if a.Precedence ≠ b.Precedence then decide (a.Precedence > b.Precedence)
  else if a.SourceNS ≠ b.SourceNS then strLtB a.SourceNS b.SourceNS
  else if a.SourceName ≠ b.SourceName then strLtB a.SourceName b.SourceName
  else if a.DestinationNS ≠ b.DestinationNS then strLtB a.DestinationNS b.DestinationNS
  else strLtB a.DestinationName b.DestinationName

/-- Lexicographic combination of a head relation and a tail relation. -/
def lexRel {α β : Type} (ra : α → α → Prop) (rb : β → β → Prop) :
    (α × β) → (α × β) → Prop :=
  fun x y => ra x.1 y.1 ∨ (x.1 = y.1 ∧ rb x.2 y.2)

/-- Head order of the sorter: precedence descending. -/
def intGt (p q : Int) : Prop := q < p

/-- Strict string order of the sorter tie-break. -/
def strLtP (a b : String) : Prop := strLtB a b = true

/-- Comparison key of an intention for the canonical ordering. -/
def sortKey (x : Intention) : Int × String × String × String × String :=
  (x.Precedence, x.SourceNS, x.SourceName, x.DestinationNS, x.DestinationName)

/-- Strict weak order on sort keys realised by the sorter. -/
def sorterRel : (Int × String × String × String × String) →
    (Int × String × String × String × String) → Prop :=
  lexRel intGt (lexRel strLtP (lexRel strLtP (lexRel strLtP strLtP)))

theorem lexRel_irrefl {α β : Type} {ra : α → α → Prop} {rb : β → β → Prop}
    (ha : ∀ a, ¬ ra a a) (hb : ∀ b, ¬ rb b b) :
    ∀ x, ¬ lexRel ra rb x x := by
  rintro x (h | ⟨-, h⟩)
  · exact ha _ h
  · exact hb _ h

theorem lexRel_trans {α β : Type} {ra : α → α → Prop} {rb : β → β → Prop}
    (ha : ∀ a b c, ra a b → ra b c → ra a c)
    (hb : ∀ a b c, rb a b → rb b c → rb a c) :
    ∀ x y z, lexRel ra rb x y → lexRel ra rb y z → lexRel ra rb x z := by
  rintro x y z (h1 | ⟨e1, h1⟩) (h2 | ⟨e2, h2⟩)
  · exact Or.inl (ha _ _ _ h1 h2)
  · exact Or.inl (e2 ▸ h1)
  · exact Or.inl (e1 ▸ h2)
  · exact Or.inr ⟨e1.trans e2, hb _ _ _ h1 h2⟩

theorem lexRel_asymm {α β : Type} {ra : α → α → Prop} {rb : β → β → Prop}
    (ha : ∀ a b, ra a b → ¬ ra b a) (hb : ∀ a b, rb a b → ¬ rb b a) :
    ∀ x y, lexRel ra rb x y → ¬ lexRel ra rb y x := by
  rintro x y (h1 | ⟨e1, h1⟩) (h2 | ⟨e2, h2⟩)
  · exact ha _ _ h1 h2
  · exact ha _ _ (e2 ▸ h1) (e2 ▸ h1)
  · exact ha _ _ (e1 ▸ h2) (e1 ▸ h2)
  · exact hb _ _ h1 h2

theorem lexRel_connex {α β : Type} {ra : α → α → Prop} {rb : β → β → Prop}
    (ha : ∀ a b, ¬ ra a b → ¬ ra b a → a = b)
    (hb : ∀ a b, ¬ rb a b → ¬ rb b a → a = b) :
    ∀ x y, ¬ lexRel ra rb x y → ¬ lexRel ra rb y x → x = y := by
  intro x y hxy hyx
  have h1 : ¬ ra x.1 y.1 := fun h => hxy (Or.inl h)
  have h2 : ¬ ra y.1 x.1 := fun h => hyx (Or.inl h)
  have he : x.1 = y.1 := ha _ _ h1 h2
  have h3 : ¬ rb x.2 y.2 := fun h => hxy (Or.inr ⟨he, h⟩)
  have h4 : ¬ rb y.2 x.2 := fun h => hyx (Or.inr ⟨he.symm, h⟩)
  exact Prod.ext he (hb _ _ h3 h4)

theorem intGt_irrefl : ∀ p : Int, ¬ intGt p p := by
  intro p
  unfold intGt
  omega

theorem intGt_trans : ∀ p q r : Int, intGt p q → intGt q r → intGt p r := by
  intro p q r
  unfold intGt
  omega

theorem intGt_asymm : ∀ p q : Int, intGt p q → ¬ intGt q p := by
  intro p q
  unfold intGt
  omega

theorem intGt_connex : ∀ p q : Int, ¬ intGt p q → ¬ intGt q p → p = q := by
  intro p q
  unfold intGt
  omega

theorem strLtP_irrefl : ∀ s : String, ¬ strLtP s s := by
  intro s h
  unfold strLtP strLtB at h
  rw [natListLt_irrefl] at h
  exact Bool.false_ne_true h

theorem strLtP_trans : ∀ a b c : String, strLtP a b → strLtP b c → strLtP a c := by
  intro a b c h1 h2
  exact natListLt_trans _ _ _ h1 h2

theorem strLtP_asymm : ∀ a b : String, strLtP a b → ¬ strLtP b a := by
  intro a b h1 h2
  unfold strLtP strLtB at h1 h2
  rw [natListLt_asymm h1] at h2
  exact Bool.false_ne_true h2

theorem strLtP_connex : ∀ a b : String, ¬ strLtP a b → ¬ strLtP b a → a = b := by
  intro a b h1 h2
  unfold strLtP strLtB at h1 h2
  exact strNats_inj (natListLt_connex _ _ (Bool.not_eq_true _ ▸ h1)
    (Bool.not_eq_true _ ▸ h2))

theorem sorterRel_irrefl : ∀ k, ¬ sorterRel k k :=
  lexRel_irrefl intGt_irrefl
    (lexRel_irrefl strLtP_irrefl
      (lexRel_irrefl strLtP_irrefl
        (lexRel_irrefl strLtP_irrefl strLtP_irrefl)))

theorem sorterRel_trans : ∀ x y z, sorterRel x y → sorterRel y z → sorterRel x z :=
  lexRel_trans intGt_trans
    (lexRel_trans strLtP_trans
      (lexRel_trans strLtP_trans
        (lexRel_trans strLtP_trans strLtP_trans)))

theorem sorterRel_asymm : ∀ x y, sorterRel x y → ¬ sorterRel y x :=
  lexRel_asymm intGt_asymm
    (lexRel_asymm strLtP_asymm
      (lexRel_asymm strLtP_asymm
        (lexRel_asymm strLtP_asymm strLtP_asymm)))

theorem sorterRel_connex : ∀ x y, ¬ sorterRel x y → ¬ sorterRel y x → x = y :=
  lexRel_connex intGt_connex
    (lexRel_connex strLtP_connex
      (lexRel_connex strLtP_connex
        (lexRel_connex strLtP_connex strLtP_connex)))

theorem less_iff_sorterRel (a b : Intention) :
    IntentionPrecedenceSorter.Less a b = true ↔ sorterRel (sortKey a) (sortKey b) := by
  unfold IntentionPrecedenceSorter.Less sorterRel lexRel intGt strLtP sortKey strLtB
  by_cases hp : a.Precedence = b.Precedence <;>
    by_cases h1 : a.SourceNS = b.SourceNS <;>
      by_cases h2 : a.SourceName = b.SourceName <;>
        by_cases h3 : a.DestinationNS = b.DestinationNS <;>
          simp [hp, h1, h2, h3, natListLt_irrefl, gt_iff_lt, lt_irrefl]

/-- Sorted-position relation induced by the comparator: `a` may stay before
`b` exactly when `b` is not strictly less than `a`, matching the Go sort
contract that a sorted slice has no pair with `Less(j, i)` for `i < j`. -/
def sortLe (a b : Intention) : Prop := IntentionPrecedenceSorter.Less b a = false

instance : DecidableRel sortLe := fun a b => by
  unfold sortLe
  infer_instance

theorem not_less_iff (a b : Intention) :
    IntentionPrecedenceSorter.Less a b = false ↔ ¬ sorterRel (sortKey a) (sortKey b) := by
  rw [← less_iff_sorterRel]
  cases h : IntentionPrecedenceSorter.Less a b <;> simp

instance : IsTotal Intention sortLe := by
  constructor
  intro a b
  unfold sortLe
  by_cases h : IntentionPrecedenceSorter.Less b a = true
  · right
    rw [not_less_iff]
    exact sorterRel_asymm _ _ ((less_iff_sorterRel b a).mp h)
  · left
    cases hv : IntentionPrecedenceSorter.Less b a
    · rfl
    · exact absurd hv h

instance : IsTrans Intention sortLe := by
  constructor
  intro a b c h1 h2
  unfold sortLe at h1 h2 ⊢
  rw [not_less_iff] at h1 h2 ⊢
  intro hca
  by_cases hbc : sorterRel (sortKey b) (sortKey c)
  · exact h1 (sorterRel_trans _ _ _ hbc hca)
  · have hk : sortKey b = sortKey c := sorterRel_connex _ _ hbc h2
    exact h1 (hk ▸ hca)

/-- Embedding of sorting a list of intentions with the canonical comparator
(a stable sort ordered by `Less`). -/
def sortIntentions (l : List Intention) : List Intention :=
  l.insertionSort sortLe

/-- First of a pair of intentions that the comparator cannot order. -/
def exSortA : Intention := { exIntention with Description := "x" }

/-- Second of a pair of intentions that the comparator cannot order. -/
def exSortB : Intention := { exIntention with Description := "y" }

/-- C2 counterexample: the comparator is not a strict total order over
intentions, because two distinct intentions that agree on Precedence and on
the whole 4-tuple (here differing only in Description) are incomparable in
both directions. -/
theorem sorter_less_not_total :
    IntentionPrecedenceSorter.Less exSortA exSortB = false ∧
    IntentionPrecedenceSorter.Less exSortB exSortA = false ∧
    exSortA ≠ exSortB := by decide

/-- C2 as amended: the comparator orders by Precedence descending and, on ties,
by ascending lexicographic order of the 4-tuple (SourceNS, SourceName,
DestinationNS, DestinationName); it is a strict weak order — irreflexive,
asymmetric and transitive, though not total on intentions — and for every list
of intentions, sorting (stably) with this comparator is idempotent. -/
theorem sorter_weak_order_sort_idempotent :
    (∀ a b : Intention, IntentionPrecedenceSorter.Less a b = true ↔
      sorterRel (sortKey a) (sortKey b)) ∧
    (∀ a : Intention, IntentionPrecedenceSorter.Less a a = false) ∧
    (∀ a b : Intention, IntentionPrecedenceSorter.Less a b = true →
      IntentionPrecedenceSorter.Less b a = false) ∧
    (∀ a b c : Intention, IntentionPrecedenceSorter.Less a b = true →
      IntentionPrecedenceSorter.Less b c = true →
      IntentionPrecedenceSorter.Less a c = true) ∧
    (∀ l : List Intention, sortIntentions (sortIntentions l) = sortIntentions l) := by
  refine ⟨less_iff_sorterRel, ?_, ?_, ?_, ?_⟩
  · intro a
    rw [not_less_iff]
    exact sorterRel_irrefl _
  · intro a b h
    rw [not_less_iff]
    exact sorterRel_asymm _ _ ((less_iff_sorterRel a b).mp h)
  · intro a b c h1 h2
    rw [less_iff_sorterRel] at h1 h2 ⊢
    exact sorterRel_trans _ _ _ h1 h2
  · intro l
    unfold sortIntentions
    exact List.Sorted.insertionSort_eq (List.sorted_insertionSort sortLe l)

/-- Intention equal to the template except for its precedence. -/
def exPrec (p : Int) : Intention := { exIntention with Precedence := p }

/-- Witness for C2 as amended, at concrete intentions. -/
theorem sorter_weak_order_sort_idempotent_witness :
    (IntentionPrecedenceSorter.Less (exPrec 3) (exPrec 2) = true ↔
      sorterRel (sortKey (exPrec 3)) (sortKey (exPrec 2))) ∧
    IntentionPrecedenceSorter.Less (exPrec 2) (exPrec 3) = false ∧
    IntentionPrecedenceSorter.Less (exPrec 3) (exPrec 1) = true :=
  ⟨sorter_weak_order_sort_idempotent.1 (exPrec 3) (exPrec 2),
   sorter_weak_order_sort_idempotent.2.2.1 (exPrec 3) (exPrec 2) (by decide),
   sorter_weak_order_sort_idempotent.2.2.2.1 (exPrec 3) (exPrec 2) (exPrec 1)
     (by decide) (by decide)⟩

/-- Enforcement decision of the external access-control authorizer. Modelled
from the spec: capability checks return Allow or Deny (the acl package also
carries a Default variant). -/
inductive EnforcementDecision where
  | Allow : EnforcementDecision
  | Deny : EnforcementDecision
  | Default : EnforcementDecision
deriving DecidableEq

/-- External authorizer collaborator. Modelled from the spec: an opaque
authorizer implementing IntentionRead and IntentionWrite capability checks on
a name; the enterprise authorizer context filled by FillAuthzContext is
declared outside the provided sources and carries no information used here,
so it is elided. A nil Go authorizer is modelled as `none` at the call site. -/
structure Authorizer where
  IntentionRead : String → EnforcementDecision
  IntentionWrite : String → EnforcementDecision

/-- Embedding of `Intention.CanWrite`: a nil authorizer allows, an empty
destination name is refused, otherwise the destination owner check decides. -/
def Intention.CanWrite (ixn : Intention) (authz : Option Authorizer) : Bool :=
  match authz with
  | none => true
  | some a =>
    if ixn.DestinationName = "" then false
    else decide (a.IntentionWrite ixn.DestinationName = EnforcementDecision.Allow)

/-- Intention whose destination name is empty. -/
def exNoDest : Intention := { exIntention with DestinationName := "" }

/-- C3 counterexample: with an empty DestinationName and a nil authorizer,
CanWrite returns true, because the nil-authorizer check precedes the empty
destination check; the claim that it returns false for every authorizer,
including a nil one, is therefore false. -/
theorem canWrite_nil_authorizer_empty_dest :
    exNoDest.DestinationName = "" ∧ exNoDest.CanWrite none = true := by decide

/-- C3 as amended: for every intention whose DestinationName is empty,
CanWrite returns false for every non-nil authorizer, while a nil authorizer
always makes CanWrite return true. -/
theorem canWrite_empty_dest_requires_authorizer
    (ixn : Intention) (h : ixn.DestinationName = "") :
    (∀ a : Authorizer, ixn.CanWrite (some a) = false) ∧
    ixn.CanWrite none = true := by
  constructor
  · intro a
    simp only [Intention.CanWrite]
    rw [if_pos h]
  · rfl

/-- Witness for C3 as amended at a concrete intention and authorizer. -/
theorem canWrite_empty_dest_requires_authorizer_witness :
    exNoDest.CanWrite (some ⟨fun _ => EnforcementDecision.Allow,
      fun _ => EnforcementDecision.Allow⟩) = false ∧
    exNoDest.CanWrite none = true :=
  ⟨(canWrite_empty_dest_requires_authorizer exNoDest (by decide)).1
     ⟨fun _ => EnforcementDecision.Allow, fun _ => EnforcementDecision.Allow⟩,
   (canWrite_empty_dest_requires_authorizer exNoDest (by decide)).2⟩

/-- Non-strict string order used for sorting meta keys ascending. -/
def strLeP (a b : String) : Prop := strLtB b a = false

instance : DecidableRel strLeP := fun a b => by
  unfold strLeP
  infer_instance

instance : IsTotal String strLeP := by
  constructor
  intro a b
  unfold strLeP
  by_cases h : strLtB b a = true
  · right
    exact natListLt_asymm h
  · left
    cases hv : strLtB b a
    · rfl
    · exact absurd hv h

instance : IsTrans String strLeP := by
  constructor
  intro a b c h1 h2
  unfold strLeP strLtB at h1 h2 ⊢
  by_contra hv
  have hca : natListLt (strNats c) (strNats a) = true := by
    cases hw : natListLt (strNats c) (strNats a)
    · exact absurd hw hv
    · rfl
  by_cases hbc : natListLt (strNats b) (strNats c) = true
  · have hba := natListLt_trans _ _ _ hbc hca
    rw [h1] at hba
    exact Bool.false_ne_true hba
  · have hbc0 : natListLt (strNats b) (strNats c) = false := by
      cases hw : natListLt (strNats b) (strNats c)
      · rfl
      · exact absurd hw hbc
    have heq := natListLt_connex _ _ hbc0 h2
    rw [← heq] at hca
    rw [h1] at hca
    exact Bool.false_ne_true hca

instance : IsAntisymm String strLeP := by
  constructor
  intro a b h1 h2
  unfold strLeP at h1 h2
  exact strNats_inj (natListLt_connex _ _ h2 h1)

/-- Embedding of Go `sort.Strings`: sorts ascending in the bytewise order. -/
def sortStrings (l : List String) : List String := l.insertionSort strLeP

/-- Value stored in the Go map under a key (the map read `x.Meta[k]`). -/
def metaLookup (m : List (String × String)) (k : String) : String :=
  ((m.find? (fun p => p.1 == k)).map Prod.snd).getD ""

/-- Little-endian encoding of a Go `uint64(p)` value, eight bytes, as
`binary.Write` with `binary.LittleEndian` produces. -/
def u64LE (p : Int) : List Nat :=
  (List.range 8).map (fun i => ((p % (2 : Int) ^ 64).toNat >>> (8 * i)) % 256)

/-- Byte stream that `SetHash` feeds to the digest: the user-set fields in
fixed order, then the precedence as a little-endian 64-bit value, then the
meta entries sorted by key with each value written right after its key. -/
def hashInput (x : Intention) : List Nat :=
  strBytes x.ID ++ strBytes x.Description ++
  strBytes x.SourceNS ++ strBytes x.SourceName ++
  strBytes x.DestinationNS ++ strBytes x.DestinationName ++
  strBytes x.SourceType ++ strBytes x.Action ++
  u64LE x.Precedence ++
  (sortStrings (x.Meta.map Prod.fst)).flatMap
    (fun k => strBytes k ++ strBytes (metaLookup x.Meta k))

/-- Embedding of `Intention.SetHash`. Modelled from the spec for the digest
itself: blake2b-256 (a vendored library) is a fixed collision-resistant
function of its input stream, so the model records the exact stream written
to it; equal streams yield equal digests under any such function, which is
the only property the claims about `SetHash` rest on. -/
def Intention.SetHash (x : Intention) : Intention :=
  { x with Hash := some (hashInput x) }

theorem find?_eq_of_perm {m1 m2 : List (String × String)} (h : m1.Perm m2)
    (hnd : (m1.map Prod.fst).Nodup) (k : String) :
    m1.find? (fun p => p.1 == k) = m2.find? (fun p => p.1 == k) := by
  induction h with
  | nil => rfl
  | cons x h ih =>
    rename_i l1 l2
    cases hx : (x.1 == k)
    · simp only [List.find?, hx]
      exact ih (by simpa using (List.nodup_cons.mp (by simpa using hnd)).2)
    · simp only [List.find?, hx]
  | swap x y l =>
    have hmem : y.1 ∉ x.1 :: l.map Prod.fst :=
      (List.nodup_cons.mp (by simpa using hnd)).1
    have hne : y.1 ≠ x.1 := fun he => hmem (by rw [he]; exact List.mem_cons_self _ _)
    cases hx : (x.1 == k) <;> cases hy : (y.1 == k) <;>
      simp only [List.find?, hx, hy]
    exfalso
    have hxk : x.1 = k := by simpa using hx
    have hyk : y.1 = k := by simpa using hy
    exact hne (hyk.trans hxk.symm)
  | trans h1 h2 ih1 ih2 =>
    refine (ih1 hnd).trans (ih2 ?_)
    exact (h1.map Prod.fst).nodup hnd

theorem metaLookup_eq_of_perm {m1 m2 : List (String × String)} (h : m1.Perm m2)
    (hnd : (m1.map Prod.fst).Nodup) (k : String) :
    metaLookup m1 k = metaLookup m2 k := by
  unfold metaLookup
  rw [find?_eq_of_perm h hnd k]

theorem sortStrings_eq_of_perm {l1 l2 : List String} (h : l1.Perm l2) :
    sortStrings l1 = sortStrings l2 := by
  unfold sortStrings
  have hp : (List.insertionSort strLeP l1).Perm (List.insertionSort strLeP l2) :=
    ((List.perm_insertionSort strLeP l1).trans h).trans
      (List.perm_insertionSort strLeP l2).symm
  exact List.eq_of_perm_of_sorted hp
    (List.sorted_insertionSort strLeP l1) (List.sorted_insertionSort strLeP l2)

theorem metaStream_eq_of_perm {m1 m2 : List (String × String)} (h : m1.Perm m2)
    (hnd : (m1.map Prod.fst).Nodup) :
    (sortStrings (m1.map Prod.fst)).flatMap
        (fun k => strBytes k ++ strBytes (metaLookup m1 k)) =
      (sortStrings (m2.map Prod.fst)).flatMap
        (fun k => strBytes k ++ strBytes (metaLookup m2 k)) := by
  rw [sortStrings_eq_of_perm (h.map Prod.fst)]
  have hfun : ∀ k ∈ sortStrings (m2.map Prod.fst),
      strBytes k ++ strBytes (metaLookup m1 k) =
        strBytes k ++ strBytes (metaLookup m2 k) := by
    intro k _
    rw [metaLookup_eq_of_perm h hnd k]
  simp only [List.flatMap]
  exact congrArg List.flatten (List.map_congr_left hfun)

/-- Intention carrying the byte pair `ab` entirely inside its ID. -/
def exHashA : Intention := { exIntention with ID := "ab" }

/-- Intention splitting the same bytes between ID and Description. -/
def exHashB : Intention := { exIntention with ID := "a", Description := "b" }

set_option maxRecDepth 4000 in
/-- C5 counterexample: the hashed fields are concatenated with no separators,
so two intentions that differ in ID (and Description) can feed the digest the
identical byte stream and receive the identical hash; a difference in a
content field does not always change the digest. -/
theorem setHash_field_shift_collision :
    exHashA.SetHash.Hash = exHashB.SetHash.Hash ∧ exHashA.ID ≠ exHashB.ID := by decide

/-- C5 as amended: two intentions identical in all content fields (ID,
Description, the four tuple fields, SourceType, Action, Precedence, Meta)
receive an identical digest; the converse direction fails (see the
counterexample), since distinct contents can concatenate to the same hashed
stream. -/
theorem setHash_determined_by_content (x y : Intention)
    (hID : x.ID = y.ID) (hDesc : x.Description = y.Description)
    (hSNS : x.SourceNS = y.SourceNS) (hSN : x.SourceName = y.SourceName)
    (hDNS : x.DestinationNS = y.DestinationNS)
    (hDN : x.DestinationName = y.DestinationName)
    (hST : x.SourceType = y.SourceType) (hA : x.Action = y.Action)
    (hP : x.Precedence = y.Precedence) (hM : x.Meta = y.Meta) :
    x.SetHash.Hash = y.SetHash.Hash := by
  show some (hashInput x) = some (hashInput y)
  unfold hashInput
  rw [hID, hDesc, hSNS, hSN, hDNS, hDN, hST, hA, hP, hM]

/-- Witness for C5 as amended: equal content fields with different
bookkeeping (CreatedAt) give equal digests. -/
theorem setHash_determined_by_content_witness :
    exIntention.SetHash.Hash =
      ({ exIntention with CreatedAt := 5 } : Intention).SetHash.Hash :=
  setHash_determined_by_content _ _ rfl rfl rfl rfl rfl rfl rfl rfl rfl rfl

/-- C6: the digest is independent of the order of Meta entries — for any two
intentions equal in all other hashed fields whose Meta mappings hold the same
key-value pairs in any order (keys distinct, as in a Go map), SetHash yields
identical hashes, the meta entries being folded in ascending key order with
each value right after its key. -/
theorem setHash_meta_order_independent (x y : Intention)
    (hID : x.ID = y.ID) (hDesc : x.Description = y.Description)
    (hSNS : x.SourceNS = y.SourceNS) (hSN : x.SourceName = y.SourceName)
    (hDNS : x.DestinationNS = y.DestinationNS)
    (hDN : x.DestinationName = y.DestinationName)
    (hST : x.SourceType = y.SourceType) (hA : x.Action = y.Action)
    (hP : x.Precedence = y.Precedence)
    (hnd : (x.Meta.map Prod.fst).Nodup) (hperm : x.Meta.Perm y.Meta) :
    x.SetHash.Hash = y.SetHash.Hash := by
  show some (hashInput x) = some (hashInput y)
  unfold hashInput
  rw [hID, hDesc, hSNS, hSN, hDNS, hDN, hST, hA, hP,
    metaStream_eq_of_perm hperm hnd]

/-- Intention with meta entries inserted in one order. -/
def exMetaX : Intention := { exIntention with Meta := [("b", "2"), ("a", "1")] }

/-- Intention with the same meta entries inserted in the other order. -/
def exMetaY : Intention := { exIntention with Meta := [("a", "1"), ("b", "2")] }

/-- Witness for C6 at concrete metas listed in two different orders. -/
theorem setHash_meta_order_independent_witness :
    exMetaX.SetHash.Hash = exMetaY.SetHash.Hash :=
  setHash_meta_order_independent exMetaX exMetaY rfl rfl rfl rfl rfl rfl rfl rfl rfl
    (by decide) (by decide)

/-- Maximum opaque value length (`metaValueMaxLength`). Modelled from the
spec: a fixed maximum enforced on Description and Meta values; the constant
is declared outside the provided sources and its exact value is irrelevant
to the claims. -/
def metaValueMaxLength : Nat := 512

/-- Maximum number of Meta entries (`metaMaxKeyPairs`). Modelled from the
spec, like `metaValueMaxLength`. -/
def metaMaxKeyPairs : Nat := 64

/-- Maximum Meta key length (`metaKeyMaxLength`). Modelled from the spec,
like `metaValueMaxLength`. -/
def metaKeyMaxLength : Nat := 128

/-- Go `len` of a string: its UTF-8 byte count. -/
def goLen (s : String) : Nat := s.utf8ByteSize

/-- Embedding of `Intention.Validate`: every violated rule appends its error
to the accumulated multierror, in source order; the empty list is success.
The numeric limits are written into the messages as the Go format verbs
would render them. -/
def Intention.Validate (x : Intention) : List String :=
  (if x.SourceNS = "" then ["SourceNS must be set"] else []) ++
  (if x.SourceName = "" then ["SourceName must be set"] else []) ++
  (if x.DestinationNS = "" then ["DestinationNS must be set"] else []) ++
  (if x.DestinationName = "" then ["DestinationName must be set"] else []) ++
  (if x.SourceNS ≠ WildcardSpecifier ∧ strContains x.SourceNS WildcardSpecifier = true then
    ["SourceNS: wildcard character \x27*\x27 cannot be used with partial values"] else []) ++
  (if x.SourceName ≠ WildcardSpecifier ∧ strContains x.SourceName WildcardSpecifier = true then
    ["SourceName: wildcard character \x27*\x27 cannot be used with partial values"] else []) ++
  (if x.SourceName ≠ WildcardSpecifier ∧ x.SourceNS = WildcardSpecifier then
    ["SourceName: exact value cannot follow wildcard namespace"] else []) ++
  (if x.DestinationNS ≠ WildcardSpecifier ∧ strContains x.DestinationNS WildcardSpecifier = true then
    ["DestinationNS: wildcard character \x27*\x27 cannot be used with partial values"] else []) ++
  (if x.DestinationName ≠ WildcardSpecifier ∧ strContains x.DestinationName WildcardSpecifier = true then
    ["DestinationName: wildcard character \x27*\x27 cannot be used with partial values"] else []) ++
  (if x.DestinationName ≠ WildcardSpecifier ∧ x.DestinationNS = WildcardSpecifier then
    ["DestinationName: exact value cannot follow wildcard namespace"] else []) ++
  (if goLen x.Description > metaValueMaxLength then
    ["Description exceeds maximum length 512"] else []) ++
  (if x.Meta.length > metaMaxKeyPairs then
    ["Meta exceeds maximum element count 64"] else []) ++
  (x.Meta.flatMap (fun kv =>
    (if goLen kv.1 > metaKeyMaxLength then
      ["Meta key \"" ++ kv.1 ++ "\" exceeds maximum length 128"] else []) ++
    (if goLen kv.2 > metaValueMaxLength then
      ["Meta value for key \"" ++ kv.1 ++ "\" exceeds maximum length 512"] else []))) ++
  (if x.Action = IntentionActionAllow ∨ x.Action = IntentionActionDeny then []
   else ["Action must be set to \x27allow\x27 or \x27deny\x27"]) ++
  (if x.SourceType = IntentionSourceConsul then []
   else ["SourceType must be set to \x27consul\x27"])

/-- Conjunction of every validation rule, as the spec lists them. -/
def NoRuleViolated (x : Intention) : Prop :=
  x.SourceNS ≠ "" ∧ x.SourceName ≠ "" ∧ x.DestinationNS ≠ "" ∧ x.DestinationName ≠ "" ∧
  ¬(x.SourceNS ≠ WildcardSpecifier ∧ strContains x.SourceNS WildcardSpecifier = true) ∧
  ¬(x.SourceName ≠ WildcardSpecifier ∧ strContains x.SourceName WildcardSpecifier = true) ∧
  ¬(x.SourceName ≠ WildcardSpecifier ∧ x.SourceNS = WildcardSpecifier) ∧
  ¬(x.DestinationNS ≠ WildcardSpecifier ∧ strContains x.DestinationNS WildcardSpecifier = true) ∧
  ¬(x.DestinationName ≠ WildcardSpecifier ∧ strContains x.DestinationName WildcardSpecifier = true) ∧
  ¬(x.DestinationName ≠ WildcardSpecifier ∧ x.DestinationNS = WildcardSpecifier) ∧
  goLen x.Description ≤ metaValueMaxLength ∧
  x.Meta.length ≤ metaMaxKeyPairs ∧
  (∀ kv ∈ x.Meta, goLen kv.1 ≤ metaKeyMaxLength ∧ goLen kv.2 ≤ metaValueMaxLength) ∧
  (x.Action = IntentionActionAllow ∨ x.Action = IntentionActionDeny) ∧
  x.SourceType = IntentionSourceConsul

/-- C7: Validate checks all rules independently and aggregates every violated
rule: the error list is empty exactly when no rule is violated, and each
violated rule contributes its message whatever the other fields look like
(so an intention with an empty SourceName and an invalid Action reports
both violations in one pass). -/
theorem validate_aggregates_all_violations (x : Intention) :
    (x.Validate = [] ↔ NoRuleViolated x) ∧
    (x.SourceNS = "" → "SourceNS must be set" ∈ x.Validate) ∧
    (x.SourceName = "" → "SourceName must be set" ∈ x.Validate) ∧
    (x.DestinationNS = "" → "DestinationNS must be set" ∈ x.Validate) ∧
    (x.DestinationName = "" → "DestinationName must be set" ∈ x.Validate) ∧
    (x.SourceNS ≠ WildcardSpecifier → strContains x.SourceNS WildcardSpecifier = true →
      "SourceNS: wildcard character \x27*\x27 cannot be used with partial values" ∈ x.Validate) ∧
    (x.SourceName ≠ WildcardSpecifier → strContains x.SourceName WildcardSpecifier = true →
      "SourceName: wildcard character \x27*\x27 cannot be used with partial values" ∈ x.Validate) ∧
    (x.SourceName ≠ WildcardSpecifier → x.SourceNS = WildcardSpecifier →
      "SourceName: exact value cannot follow wildcard namespace" ∈ x.Validate) ∧
    (x.DestinationNS ≠ WildcardSpecifier → strContains x.DestinationNS WildcardSpecifier = true →
      "DestinationNS: wildcard character \x27*\x27 cannot be used with partial values" ∈ x.Validate) ∧
    (x.DestinationName ≠ WildcardSpecifier → strContains x.DestinationName WildcardSpecifier = true →
      "DestinationName: wildcard character \x27*\x27 cannot be used with partial values" ∈ x.Validate) ∧
    (x.DestinationName ≠ WildcardSpecifier → x.DestinationNS = WildcardSpecifier →
      "DestinationName: exact value cannot follow wildcard namespace" ∈ x.Validate) ∧
    (goLen x.Description > metaValueMaxLength →
      "Description exceeds maximum length 512" ∈ x.Validate) ∧
    (x.Meta.length > metaMaxKeyPairs →
      "Meta exceeds maximum element count 64" ∈ x.Validate) ∧
    (∀ kv ∈ x.Meta, goLen kv.1 > metaKeyMaxLength →
      ("Meta key \"" ++ kv.1 ++ "\" exceeds maximum length 128") ∈ x.Validate) ∧
    (∀ kv ∈ x.Meta, goLen kv.2 > metaValueMaxLength →
      ("Meta value for key \"" ++ kv.1 ++ "\" exceeds maximum length 512") ∈ x.Validate) ∧
    (¬(x.Action = IntentionActionAllow ∨ x.Action = IntentionActionDeny) →
      "Action must be set to \x27allow\x27 or \x27deny\x27" ∈ x.Validate) ∧
    (x.SourceType ≠ IntentionSourceConsul →
      "SourceType must be set to \x27consul\x27" ∈ x.Validate) := by
  refine ⟨?_, ?_, ?_, ?_, ?_, ?_, ?_, ?_, ?_, ?_, ?_, ?_, ?_, ?_, ?_, ?_, ?_⟩
  · unfold Intention.Validate NoRuleViolated
    simp only [List.append_eq_nil, List.flatMap_eq_nil_iff, ite_eq_right_iff,
      ite_eq_left_iff, List.cons_ne_nil, imp_false, not_not, gt_iff_lt, not_lt]
    tauto
  · intro h
    unfold Intention.Validate
    simp [List.mem_append, h]
  · intro h
    unfold Intention.Validate
    simp [List.mem_append, h]
  · intro h
    unfold Intention.Validate
    simp [List.mem_append, h]
  · intro h
    unfold Intention.Validate
    simp [List.mem_append, h]
  · intro h1 h2
    unfold Intention.Validate
    simp [List.mem_append, h1, h2]
  · intro h1 h2
    unfold Intention.Validate
    simp [List.mem_append, h1, h2]
  · intro h1 h2
    unfold Intention.Validate
    simp [List.mem_append, h1, h2]
  · intro h1 h2
    unfold Intention.Validate
    simp [List.mem_append, h1, h2]
  · intro h1 h2
    unfold Intention.Validate
    simp [List.mem_append, h1, h2]
  · intro h1 h2
    unfold Intention.Validate
    simp [List.mem_append, h1, h2]
  · intro h
    unfold Intention.Validate
    simp [List.mem_append, h]
  · intro h
    unfold Intention.Validate
    simp [List.mem_append, h]
  · intro kv hkv h
    have hmem : ("Meta key \"" ++ kv.1 ++ "\" exceeds maximum length 128") ∈
        x.Meta.flatMap (fun kv =>
          (if goLen kv.1 > metaKeyMaxLength then
            ["Meta key \"" ++ kv.1 ++ "\" exceeds maximum length 128"] else []) ++
          (if goLen kv.2 > metaValueMaxLength then
            ["Meta value for key \"" ++ kv.1 ++ "\" exceeds maximum length 512"] else [])) :=
      List.mem_flatMap.mpr ⟨kv, hkv, by simp [h]⟩
    unfold Intention.Validate
    simp only [List.mem_append]
    tauto
  · intro kv hkv h
    have hmem : ("Meta value for key \"" ++ kv.1 ++ "\" exceeds maximum length 512") ∈
        x.Meta.flatMap (fun kv =>
          (if goLen kv.1 > metaKeyMaxLength then
            ["Meta key \"" ++ kv.1 ++ "\" exceeds maximum length 128"] else []) ++
          (if goLen kv.2 > metaValueMaxLength then
            ["Meta value for key \"" ++ kv.1 ++ "\" exceeds maximum length 512"] else [])) :=
      List.mem_flatMap.mpr ⟨kv, hkv, by simp [h]⟩
    unfold Intention.Validate
    simp only [List.mem_append]
    tauto
  · intro h
    unfold Intention.Validate
    simp [List.mem_append, h]
  · intro h
    unfold Intention.Validate
    simp [List.mem_append, h]

/-- Intention violating two independent rules at once. -/
def exValBad : Intention := { exIntention with SourceName := "", Action := "bogus" }

/-- Witness for C7 at a concrete intention with an empty SourceName and an
invalid Action: both violations are reported in one pass. -/
theorem validate_aggregates_all_violations_witness :
    "SourceName must be set" ∈ exValBad.Validate ∧
    "Action must be set to \x27allow\x27 or \x27deny\x27" ∈ exValBad.Validate :=
  ⟨(validate_aggregates_all_violations exValBad).2.2.1 rfl,
   (validate_aggregates_all_violations
      exValBad).2.2.2.2.2.2.2.2.2.2.2.2.2.2.2.1 (by decide)⟩

/-- Serialized wire form of an intention. Modelled from the spec: records
exchanged over RPC or replication preserve all content fields plus the hash
carried as a string, while timestamps are never carried over the wire; an
absent hash field decodes as the empty string (the Go zero value for the
auxiliary field). -/
structure IntentionWire where
  ID : String
  Description : String
  SourceNS : String
  SourceName : String
  DestinationNS : String
  DestinationName : String
  SourceType : String
  Action : String
  DefaultAddr : String
  DefaultPort : Int
  Meta : List (String × String)
  Precedence : Int
  Hash : String
deriving DecidableEq

/-- Serialization of an intention. Modelled from the spec: content fields are
copied; a nil hash serializes to an absent (empty) hash string and a present
digest to an opaque string, whose exact encoding is irrelevant to the claims. -/
def marshalIntention (x : Intention) : IntentionWire :=
  { ID := x.ID, Description := x.Description, SourceNS := x.SourceNS,
    SourceName := x.SourceName, DestinationNS := x.DestinationNS,
    DestinationName := x.DestinationName, SourceType := x.SourceType,
    Action := x.Action, DefaultAddr := x.DefaultAddr, DefaultPort := x.DefaultPort,
    Meta := x.Meta, Precedence := x.Precedence,
    Hash := match x.Hash with
            | none => ""
            | some bs => String.mk (bs.map Char.ofNat) }

/-- Embedding of `Intention.UnmarshalJSON` over the wire form: the auxiliary
record decodes into the intention (timestamps keep their zero values), and
the hash is assigned only when the decoded hash string is non-empty, so an
empty or absent hash string leaves the hash absent (nil); decoding a
well-formed wire record cannot fail. -/
def Intention.UnmarshalJSON (w : IntentionWire) : Except String Intention :=
  Except.ok
    { ID := w.ID, Description := w.Description, SourceNS := w.SourceNS,
      SourceName := w.SourceName, DestinationNS := w.DestinationNS,
      DestinationName := w.DestinationName, SourceType := w.SourceType,
      Action := w.Action, DefaultAddr := w.DefaultAddr, DefaultPort := w.DefaultPort,
      Meta := w.Meta, Precedence := w.Precedence,
      CreatedAt := 0, UpdatedAt := 0, CreateIndex := 0, ModifyIndex := 0,
      Hash := if w.Hash ≠ "" then some (strBytes w.Hash) else none }

/-- C8: deserializing a wire record whose hash string is empty or absent
succeeds and yields an intention whose hash is absent (none), never a
zero-length byte string; in particular serialize-then-deserialize of an
intention with an empty hash round-trips to an absent hash rather than a
decode error. -/
theorem unmarshal_empty_hash_absent :
    (∀ w : IntentionWire, w.Hash = "" →
      ∃ y, Intention.UnmarshalJSON w = Except.ok y ∧ y.Hash = none) ∧
    (∀ x : Intention, x.Hash = none →
      ∃ y, Intention.UnmarshalJSON (marshalIntention x) = Except.ok y ∧
        y.Hash = none ∧ y.Hash ≠ some []) := by
  constructor
  · intro w hw
    refine ⟨_, rfl, ?_⟩
    simp [hw]
  · intro x hx
    refine ⟨_, rfl, ?_, ?_⟩
    · simp [marshalIntention, hx]
    · simp [marshalIntention, hx]

/-- Witness for C8 at a concrete intention with an empty hash. -/
theorem unmarshal_empty_hash_absent_witness :
    ∃ y, Intention.UnmarshalJSON (marshalIntention exIntention) = Except.ok y ∧
      y.Hash = none ∧ y.Hash ≠ some [] :=
  unmarshal_empty_hash_absent.2 exIntention rfl

/-- Store of allocated Go `map[string]string` values: Go maps are reference
types, so an intention holds a reference into this heap rather than the
entries themselves. -/
structure MetaHeap where
  maps : List (List (String × String))
deriving DecidableEq

/-- Dereference of a map reference (out-of-range reads give the empty map,
which valid references never hit). -/
def MetaHeap.lookup (h : MetaHeap) (r : Nat) : List (String × String) :=
  h.maps.getD r []

/-- Go map insertion `m[k] = v`: replaces the value of an existing key or
appends a new entry. -/
def mapInsert (m : List (String × String)) (k v : String) : List (String × String) :=
  if m.any (fun p => p.1 == k) then
    m.map (fun p => if p.1 == k then (k, v) else p)
  else m ++ [(k, v)]

/-- Write `m[k] = v` through a map reference: only the referenced cell of the
heap changes. -/
def MetaHeap.mapAssign (h : MetaHeap) (r : Nat) (k v : String) : MetaHeap :=
  ⟨h.maps.set r (mapInsert (h.lookup r) k v)⟩

/-- The `Intention` as a Go runtime object: the scalar fields are copied by
value on struct assignment, while `Meta` is a map reference into a
`MetaHeap` (`none` models a nil map). -/
structure IntentionObj extends IntentionData where
  MetaRef : Option Nat
  Hash : Option (List Nat)
deriving DecidableEq

/-- Embedding of `Intention.Clone` with the map reference made explicit:
`t2 := *t` copies every field including the map reference; when the map is
not nil a fresh map is allocated and the entries are copied into it; the
hash of the clone is set to nil. The original object and its heap cell are
never written. -/
def IntentionObj.Clone (t : IntentionObj) (h : MetaHeap) : MetaHeap × IntentionObj :=
  match t.MetaRef with
  | none => (h, { t with Hash := none })
  | some r =>
    (⟨h.maps ++ [h.lookup r]⟩,
     { t with MetaRef := some h.maps.length, Hash := none })

/-- C9: Clone returns a new instance equal to the original in every scalar
content field with its hash cleared to nil; its meta map is a fresh deep
copy holding the same entries, so writing through the clone never changes
the entries seen through the original and writing through the original
never changes the entries seen through the clone; the call leaves the
original object and its heap cell unchanged. -/
theorem clone_deep_copies_meta_clears_hash :
    (∀ (h : MetaHeap) (t : IntentionObj), t.MetaRef = none →
      t.Clone h = (h, { t with Hash := none })) ∧
    (∀ (h : MetaHeap) (t : IntentionObj) (r : Nat), t.MetaRef = some r →
      r < h.maps.length →
      ((t.Clone h).2.toIntentionData = t.toIntentionData ∧
       (t.Clone h).2.Hash = none ∧
       (t.Clone h).2.MetaRef = some h.maps.length ∧
       (t.Clone h).1.lookup h.maps.length = h.lookup r ∧
       (t.Clone h).1.lookup r = h.lookup r ∧
       (∀ k v, ((t.Clone h).1.mapAssign h.maps.length k v).lookup r = h.lookup r) ∧
       (∀ k v, ((t.Clone h).1.mapAssign r k v).lookup h.maps.length =
         (t.Clone h).1.lookup h.maps.length))) := by
  constructor
  · intro h t hnone
    simp only [IntentionObj.Clone, hnone]
  · intro h t r hsome hr
    have hc : t.Clone h =
        (MetaHeap.mk (h.maps ++ [h.lookup r]),
         { t with MetaRef := some h.maps.length, Hash := none }) := by
      simp only [IntentionObj.Clone, hsome]
    have hlen : ∀ m : List (String × String),
        (MetaHeap.mk (h.maps ++ [m])).lookup h.maps.length = m := by
      intro m
      simp only [MetaHeap.lookup, List.getD_eq_getElem?_getD]
      rw [List.getElem?_append_right (Nat.le_refl _), Nat.sub_self]
      rfl
    have hkeep : ∀ m : List (String × String),
        (MetaHeap.mk (h.maps ++ [m])).lookup r = h.lookup r := by
      intro m
      simp only [MetaHeap.lookup, List.getD_eq_getElem?_getD]
      rw [List.getElem?_append_left hr]
    rw [hc]
    refine ⟨rfl, rfl, rfl, hlen _, hkeep _, ?_, ?_⟩
    · intro k v
      simp only [MetaHeap.mapAssign, MetaHeap.lookup, List.getD_eq_getElem?_getD]
      rw [List.getElem?_set_ne (Nat.ne_of_gt hr), List.getElem?_append_left hr]
    · intro k v
      simp only [MetaHeap.mapAssign, MetaHeap.lookup, List.getD_eq_getElem?_getD]
      rw [List.getElem?_set_ne (Nat.ne_of_lt hr)]

/-- Heap with one allocated meta map. -/
def exHeap : MetaHeap := ⟨[[("a", "1")]]⟩

/-- Intention object whose meta reference points at the allocated map. -/
def exObj : IntentionObj :=
  { toIntentionData := exIntention.toIntentionData, MetaRef := some 0, Hash := none }

/-- Witness for C9 at a concrete heap and intention object. -/
theorem clone_deep_copies_meta_clears_hash_witness :
    (exObj.Clone exHeap).2.toIntentionData = exObj.toIntentionData ∧
    (exObj.Clone exHeap).2.Hash = none ∧
    (exObj.Clone exHeap).1.lookup 1 = exHeap.lookup 0 ∧
    ((exObj.Clone exHeap).1.mapAssign 1 "b" "2").lookup 0 = exHeap.lookup 0 ∧
    ((exObj.Clone exHeap).1.mapAssign 0 "b" "2").lookup 1 =
      (exObj.Clone exHeap).1.lookup 1 :=
  have ht := clone_deep_copies_meta_clears_hash.2 exHeap exObj 0 rfl (by decide)
  ⟨ht.1, ht.2.1, ht.2.2.2.1, ht.2.2.2.2.2.1 "b" "2", ht.2.2.2.2.2.2 "b" "2"⟩
